import Mathlib

set_option autoImplicit false
set_option linter.unusedVariables false

namespace Client

/-- Byte sequence: the model of Rust `Vec<u8>` / `&[u8]`, with each entry one byte value. -/
abbrev Bytes := List Nat

/-- UTF-8 encoding of one character (models the per-character step of `str::as_bytes`). -/
def encodeChar (c : Char) : Bytes :=
  let n := c.toNat
  if n < 128 then [n]
  else if n < 2048 then [192 + n / 64, 128 + n % 64]
  else if n < 65536 then [224 + n / 4096, 128 + n / 64 % 64, 128 + n % 64]
  else [240 + n / 262144, 128 + n / 4096 % 64, 128 + n / 64 % 64, 128 + n % 64]

/-- UTF-8 bytes of a string (models Rust `str::as_bytes` / `String::into_bytes`). -/
def asBytes (s : String) : Bytes := (s.data.map encodeChar).flatten

/-- Header construction error returned by the host `Fields` resource (the external
`wasi:http/types.header-error`, modelled as an opaque reason). -/
inductive HeaderError where
  | invalid
  | forbidden
  | immutable
  deriving DecidableEq

/-- Token characters accepted in a header name. Models the external transport's
header-name validation, which rejects invalid characters. -/
def isTokenChar (c : Char) : Bool :=
  c.isAlphanum || c == '-' || c == '_' || c == '.'

/-- Validity of a header name for the host Fields resource (model of the external check). -/
def validFieldName (s : String) : Bool := !s.isEmpty && s.data.all isTokenChar

/-- Validity of a header value for the host Fields resource: no NUL, CR or LF bytes
(model of the external check). -/
def validFieldValue (v : Bytes) : Bool := v.all fun b => b != 0 && b != 10 && b != 13

/-- Model of the host `Fields` resource: an insertion-ordered multi-map from
case-insensitive names to raw byte values. -/
structure Fields where
  entries : List (String × Bytes)
  deriving DecidableEq

/-- Models `Fields::new()`: the empty header map. -/
def Fields.empty : Fields := ⟨[]⟩

/-- ASCII lowercase of one character (field names are ASCII, per the header contract). -/
def lowerChar (c : Char) : Char :=
  if 65 ≤ c.toNat && c.toNat ≤ 90 then Char.ofNat (c.toNat + 32) else c

/-- ASCII lowercase of a field name, used for case-insensitive comparison. -/
def lowerName (s : String) : String := String.mk (s.data.map lowerChar)

/-- Models `Fields::get`: all values whose name matches case-insensitively, in
insertion order, so that the head of the result is the earliest-inserted value. -/
def Fields.get (f : Fields) (name : String) : List Bytes :=
  (f.entries.filter fun e => lowerName e.1 == lowerName name).map Prod.snd

/-- Models `Fields::append`: appends one entry at the end, failing with a header error
when the host rejects the name or value. -/
def Fields.append (f : Fields) (name : String) (value : Bytes) : Except HeaderError Fields :=
  if validFieldName name && validFieldValue value then
    Except.ok ⟨f.entries ++ [(name, value)]⟩
  else
    Except.error HeaderError.invalid

/-- Representative subset of the host transport error codes
(`wasi:http/types.error-code`); `InternalError` carries an optional context string. -/
inductive ErrorCode where
  | DnsTimeout
  | ConnectionRefused
  | ConnectionTerminated
  | HttpProtocolError
  | InternalError (context : Option String)
  deriving DecidableEq

/-- Client error type (src/request.rs, `enum Error`). Payloads carry the rendered
message of the wrapped external error where the original value is opaque. -/
inductive Error where
  | SerdeJson (msg : String)
  | Header (he : HeaderError)
  | Http (code : ErrorCode)
  deriving DecidableEq

/-- Display of a header error (models the external `HeaderError` Display impl). -/
def HeaderError.render : HeaderError → String
  | .invalid => "invalid header name or value"
  | .forbidden => "forbidden header"
  | .immutable => "immutable fields"

/-- Rendered message of an `Error`, following the thiserror format strings of
src/request.rs lines 18-28 (note the `Http` message carries no payload text). -/
def Error.render : Error → String
  | .SerdeJson m => "JSON serialization error: " ++ m
  | .Header he => "Header error: " ++ he.render
  | .Http _ => "HTTP error"

/-- Models `impl From<Error> for ErrorCode` (src/request.rs lines 30-37): an `Http`
error is unwrapped to its code, every other kind becomes `InternalError` with the
rendered message as context. -/
def ErrorCode.fromError : Error → ErrorCode
  | Error.Http code => code
  | other => ErrorCode.InternalError (some other.render)

/-- HTTP method (the host `wasi:http/types.method`). -/
inductive Method where
  | Get
  | Head
  | Post
  | Put
  | Delete
  | Connect
  | Options
  | Trace
  | Patch
  | Other (s : String)
  deriving DecidableEq

/-- Scheme tag of an outgoing request (the host `wasi:http/types.scheme`). -/
inductive Scheme where
  | Http
  | Https
  | Other (s : String)
  deriving DecidableEq

/-- Parsed URL as exposed by the external url crate, restricted to the accessors the
client uses: `scheme()`, `authority()`, `path()`, `query()`. -/
structure Url where
  scheme : String
  authority : String
  path : String
  query : Option String
  deriving DecidableEq

/-- Helper for decimal rendering, with structural fuel (the fuel `n + 1` always
suffices since the argument shrinks by a factor of ten per step). -/
def decDigitsAux : Nat → Nat → List Nat
  | 0, _ => []
  | fuel + 1, n => if n < 10 then [48 + n] else decDigitsAux fuel (n / 10) ++ [48 + n % 10]

/-- ASCII byte string of the decimal rendering of a natural number. -/
def decimalDigits (n : Nat) : Bytes := decDigitsAux (n + 1) n

/-- Models unsigned-integer `to_string()` (Rust Display for `usize`/`u16`/`u32`). -/
def decimalString (n : Nat) : String := String.mk ((decimalDigits n).map Char.ofNat)

/-- Request descriptor (src/request.rs, `struct Request`). -/
structure Request where
  method : Method
  url : Url
  headers : Fields
  body : Option Bytes
  deriving DecidableEq

/-- Models `Request::new` (src/request.rs lines 47-54). -/
def Request.new (method : Method) (url : Url) : Request :=
  { method := method, url := url, headers := Fields.empty, body := none }

/-- Models `Request::with_headers` (src/request.rs lines 56-59): wholesale replacement. -/
def Request.with_headers (r : Request) (headers : Fields) : Request :=
  { r with headers := headers }

/-- Models `Request::with_header` (src/request.rs lines 61-64). -/
def Request.with_header (r : Request) (name value : String) : Except Error Request :=
  match r.headers.append name (asBytes value) with
  | Except.ok f => Except.ok { r with headers := f }
  | Except.error he => Except.error (Error.Header he)

/-- Models `Request::with_body` (src/request.rs lines 66-71): store the body, then
append a `Content-Length` header rendered from its exact byte length. -/
def Request.with_body (r : Request) (body : Bytes) : Except Error Request :=
  Request.with_header { r with body := some body } "Content-Length"
    (decimalString body.length)

/-- Models `Request::with_json` (src/request.rs lines 73-80). Serialization is the
external `serde_json::to_string`; its outcome is passed in as `ser`. -/
def Request.with_json (r : Request) (ser : Except String String) : Except Error Request :=
  match r.headers.append "Content-Type" (asBytes "application/json; charset=UTF-8") with
  | Except.error he => Except.error (Error.Header he)
  | Except.ok f =>
    match ser with
    | Except.ok json => Request.with_body { r with headers := f } (asBytes json)
    | Except.error msg => Except.error (Error.SerdeJson msg)

/-- Fuel-driven chunking; `chunksOf` below instantiates the fuel with the list length,
which always suffices for a positive chunk size. -/
def chunksOfFuel (n : Nat) : Nat → Bytes → List Bytes
  | 0, _ => []
  | _ + 1, [] => []
  | fuel + 1, a :: l => ((a :: l).take n) :: chunksOfFuel n fuel ((a :: l).drop n)

/-- Models Rust `slice::chunks(n)`: consecutive chunks of `n` bytes, the last possibly
shorter; an empty slice yields no chunks. -/
def chunksOf (n : Nat) (l : Bytes) : List Bytes := chunksOfFuel n l.length l

/-- Outgoing request descriptor as assembled by `OutgoingRequest::from_url`
(src/request.rs lines 124-144). -/
structure OutgoingReq where
  method : Method
  scheme : Scheme
  authority : String
  pathWithQuery : String
  headers : Fields
  deriving DecidableEq

/-- Models `OutgoingRequest::from_url` (src/request.rs lines 124-144): scheme tag,
authority, and path-plus-query derived from the URL, plus the given method and headers. -/
def fromUrl (url : Url) (method : Method) (headers : Fields) : OutgoingReq :=
  { method := method
    scheme :=
      match url.scheme with
      | "http" => Scheme.Http
      | "https" => Scheme.Https
      | s => Scheme.Other s
    authority := url.authority
    pathWithQuery :=
      match url.query with
      | some q => url.path ++ "?" ++ q
      | none => url.path
    headers := headers }

/-- Response (src/request.rs, `struct Response`). The body is the incoming body stream,
modelled as the sequence of results of successive blocking reads: `some chunk` is a
successful read, `none` a failed read, and the list end means the stream is closed (so
the next read fails). The host guarantees each yielded chunk is no longer than the
limit passed to the read that produced it. -/
structure Response where
  status_code : Nat
  headers : Fields
  stream : List (Option Bytes)
  deriving DecidableEq

/-- Trace of what one `execute_request` call did on the transport: the assembled
outgoing request, the body chunks written-and-flushed in order (each entry one
`blocking_write_and_flush` call), whether the output stream was closed (dropped), and
whether `OutgoingBody::finish` was called; the code always passes no trailers. -/
structure ExchangeRecord where
  req : OutgoingReq
  writtenChunks : List Bytes
  streamClosed : Bool
  finishCalled : Bool
  deriving DecidableEq

/-- Outcome of a client operation: a value, a typed `Error`, or a trap (a Rust panic
from `unwrap`, which aborts the component rather than returning a `Result`). -/
inductive Outcome (α : Type) where
  | ok (a : α)
  | err (e : Error)
  | trap
  deriving DecidableEq

/-- Host environment: the external transport behavior the client calls into, indexed by
the exchange number within one `send` (0 = first, 1 = redirected). `parseLoc` models
`std::str::from_utf8` followed by `url::Url::parse` on a Location header value;
`writeOk ex i` says whether the i-th body-chunk write of exchange `ex` succeeds;
`finishOk ex` whether `OutgoingBody::finish` succeeds; `exchange` wraps `handle`, the
blocking wait and the retrieval of the incoming response, either of which can fail
with a transport error code. -/
structure Host where
  parseLoc : Bytes → Option Url
  writeOk : Nat → Nat → Bool
  finishOk : Nat → Bool
  exchange : Nat → OutgoingReq → Except ErrorCode Response

/-- Write loop over the body chunks (src/request.rs lines 103-105): chunk `i` is
written and flushed when `okAt i` holds; the first failing write panics (`unwrap`),
stopping the loop. Returns the chunks actually written and whether all writes
succeeded. -/
def writeChunks (okAt : Nat → Bool) : Nat → List Bytes → List Bytes × Bool
  | _, [] => ([], true)
  | i, c :: rest =>
    if okAt i then
      let p := writeChunks okAt (i + 1) rest
      (c :: p.1, p.2)
    else ([], false)

/-- Models the tail of `execute_request` after the body was handled (src/request.rs
lines 110-120): `handle`, the blocking wait, and the retrieval of status, headers and
body; a transport failure at any of these stages becomes a typed `Http` error. -/
def exchangePhase (host : Host) (ex : Nat) (req : OutgoingReq) (written : List Bytes)
    (closed finished : Bool) : Outcome Response × ExchangeRecord :=
  match host.exchange ex req with
  | Except.error code => (Outcome.err (Error.Http code), ⟨req, written, closed, finished⟩)
  | Except.ok resp => (Outcome.ok resp, ⟨req, written, closed, finished⟩)

/-- Models `Request::execute_request` (src/request.rs lines 97-121) against a host,
returning the outcome together with the record of transport interactions. A write or
finish failure is an `unwrap` panic, hence a trap. -/
def executeRequest (host : Host) (ex : Nat) (method : Method) (body : Option Bytes)
    (url : Url) (headers : Fields) : Outcome Response × ExchangeRecord :=
  match body with
  | none => exchangePhase host ex (fromUrl url method headers) [] false false
  | some b =>
    match writeChunks (host.writeOk ex) 0 (chunksOf 4096 b) with
    | (written, true) =>
      if host.finishOk ex then
        exchangePhase host ex (fromUrl url method headers) written true true
      else (Outcome.trap, ⟨fromUrl url method headers, written, true, false⟩)
    | (written, false) =>
      (Outcome.trap, ⟨fromUrl url method headers, written, false, false⟩)

/-- Models the redirect-target extraction in `send` (src/request.rs lines 85-90): the
first (earliest-inserted) `Location` value, UTF-8 decoded and parsed as a URL. -/
def locationUrl (host : Host) (resp : Response) : Option Url :=
  (Fields.get resp.headers "Location").head?.bind host.parseLoc

/-- Models `Request::send` (src/request.rs lines 82-95), returning the outcome and the
list of exchange records in order. -/
def Request.send (host : Host) (r : Request) : Outcome Response × List ExchangeRecord :=
  match executeRequest host 0 r.method r.body r.url r.headers with
  | (Outcome.ok resp, rec1) =>
    match locationUrl host resp with
    | some loc =>
      let e2 := executeRequest host 1 r.method r.body loc r.headers
      (e2.1, [rec1, e2.2])
    | none => (Outcome.ok resp, [rec1])
  | (Outcome.err e, rec1) => (Outcome.err e, [rec1])
  | (Outcome.trap, rec1) => (Outcome.trap, [rec1])

/-- Models Rust `str::parse::<u64>` applied to the UTF-8 decoding of raw bytes: it
succeeds exactly on an optional leading `+` followed by one or more ASCII digits with
value below 2^64. Any other byte string fails either the UTF-8 decoding or the numeric
parsing, and both failures collapse to `none`, so the two external steps are modelled
as one function. -/
def parseU64 (v : Bytes) : Option Nat :=
  let digits := if v.head? == some 43 then v.tail else v
  if digits != [] && digits.all (fun b => 48 ≤ b && b ≤ 57) then
    let n := digits.foldl (fun a b => a * 10 + (b - 48)) 0
    if n < 18446744073709551616 then some n else none
  else none

/-- Declared content length of a response (src/request.rs lines 162-167): the first
`Content-Length` value, UTF-8 decoded and parsed as u64. -/
def contentLength (headers : Fields) : Option Nat :=
  (Fields.get headers "Content-Length").head?.bind parseU64

/-- Models `u64::MAX`. -/
def U64MAX : Nat := 18446744073709551615

/-- Limit passed to every blocking read of `bytes()` (src/request.rs line 169);
computed once, before the loop, and never decremented. -/
def readLimit (headers : Fields) : Nat := (contentLength headers).getD U64MAX

/-- Read loop of `bytes()` (src/request.rs lines 171-173): successive blocking reads
with the given limit until the first failed read. Returns the chunks read and the
trace of limit arguments passed, one per read call including the final failing one. -/
def readLoop (limit : Nat) : List (Option Bytes) → List Bytes × List Nat
  | [] => ([], [limit])
  | none :: _ => ([], [limit])
  | some c :: rest =>
    let p := readLoop limit rest
    (c :: p.1, limit :: p.2)

/-- Chunks accumulated by `Response::bytes`. -/
def Response.bytesChunks (r : Response) : List Bytes :=
  (readLoop (readLimit r.headers) r.stream).1

/-- Limits passed to the successive blocking reads performed by `Response::bytes`. -/
def Response.readLimits (r : Response) : List Nat :=
  (readLoop (readLimit r.headers) r.stream).2

/-- Models `Response::bytes` (src/request.rs lines 159-176). -/
def Response.bytes (r : Response) : Bytes := r.bytesChunks.flatten

/-- Chunks a stream yields before its first failed/closed read. -/
def availableChunks : List (Option Bytes) → List Bytes
  | [] => []
  | none :: _ => []
  | some c :: rest => c :: availableChunks rest

/-- The per-read bound asserted by the spec for the `bytes()` loop: each read's limit
is at most the declared length minus the bytes already accumulated before that read. -/
def boundedByRemaining (N : Nat) (limits : List Nat) (chunks : List Bytes) : Prop :=
  ∀ i, i < limits.length →
    limits.getD i 0 ≤ N - ((chunks.take i).map List.length).sum

/-- Base API URL (src/lib.rs line 21). -/
def KITSU_URL : String := "https://kitsu.io/api/edge"

/-- Page size (src/lib.rs line 22, `PAGE_LIMIT: u16 = 10`). -/
def PAGE_LIMIT : Nat := 10

/-- URL built by `get_series_episodes` (src/lib.rs lines 54-65): `unwrap_or(1)`, a u16
`saturating_sub(1)` (truncated subtraction on naturals below 2^16), a cast to u32, and
a u32 multiply, modelled with the u32 wrap-around. -/
def getSeriesEpisodesUrl (seriesId : String) (page : Option Nat) : String :=
  let pageNum := page.getD 1
  let pageIndex := pageNum - 1
  let offset := pageIndex * PAGE_LIMIT % 4294967296
  KITSU_URL ++ "/episodes?filter[mediaId]=" ++ seriesId ++ "&page[limit]=" ++
    decimalString PAGE_LIMIT ++ "&page[offset]=" ++ decimalString offset

/-- Concrete URL used by the example hosts: the original request target. -/
def urlA : Url := ⟨"http", "a.example", "/x", none⟩

/-- Concrete URL used by the example hosts: the redirect target. -/
def urlB : Url := ⟨"http", "b.example", "/y", none⟩

/-- Concrete header set for the example requests. -/
def hdrsW : Fields := ⟨[("Accept", [42])]⟩

/-- Concrete first response carrying a `Location` header whose value is the byte
string `b` (ASCII 98). -/
def respLoc : Response := ⟨302, ⟨[("Location", [98])]⟩, []⟩

/-- Concrete second response, itself carrying a `Location` header (which must not be
followed) and a one-chunk body stream. -/
def respPlain : Response := ⟨200, ⟨[("Location", [99])]⟩, [some [5]]⟩

/-- Example host: the first exchange answers with `respLoc`, whose Location value
parses to `urlB`; the redirected exchange answers with `respPlain`; all body writes
and finishes succeed. -/
def hostRedirect : Host :=
  { parseLoc := fun v => if v = [98] then some urlB else none
    writeOk := fun _ _ => true
    finishOk := fun _ => true
    exchange := fun ex _ => if ex = 0 then Except.ok respLoc else Except.ok respPlain }

/-- Example host whose body-chunk writes all fail. -/
def hostWriteFail : Host :=
  { parseLoc := fun _ => none
    writeOk := fun _ _ => false
    finishOk := fun _ => true
    exchange := fun _ _ => Except.ok respPlain }

/-- Concrete body-less request. -/
def reqW : Request := ⟨Method.Get, urlA, hdrsW, none⟩

/-- Concrete request with a three-byte body and a matching `Content-Length` header. -/
def reqBody : Request := ⟨Method.Post, urlA, ⟨[("Content-Length", [51])]⟩, some [9, 9, 9]⟩

/-- Concrete one-byte-body request for the write-failure scenario. -/
def reqBodySmall : Request := ⟨Method.Post, urlA, Fields.empty, some [7]⟩

/-- Placeholder exchange record used as the default of list indexing in closed
statements. -/
def recNull : ExchangeRecord := ⟨fromUrl urlA Method.Get Fields.empty, [], false, false⟩

/-- Concrete response declaring `Content-Length: 2` over a stream that yields two
bytes and then one more byte before closing. -/
def respCL2 : Response := ⟨200, ⟨[("Content-Length", [50])]⟩, [some [1, 1], some [7]]⟩

/-- Expected record of the first exchange of `reqW` under `hostRedirect`. -/
def recW1 : ExchangeRecord := ⟨fromUrl urlA Method.Get hdrsW, [], false, false⟩

/-- Expected record of the first exchange of `reqBody` under `hostRedirect`. -/
def recB1 : ExchangeRecord :=
  ⟨fromUrl urlA Method.Post ⟨[("Content-Length", [51])]⟩, [[9, 9, 9]], true, true⟩

/-- Concrete header map declaring `Content-Length: 3`. -/
def hdrsCL3 : Fields := ⟨[("Content-Length", [51])]⟩

/-- Appending a valid entry succeeds and adds it at the end. -/
theorem Fields.append_ok (f : Fields) (name : String) (value : Bytes)
    (h1 : validFieldName name = true) (h2 : validFieldValue value = true) :
    f.append name value = Except.ok ⟨f.entries ++ [(name, value)]⟩ := by
  simp [Fields.append, h1, h2]

/-- Lookup after appending one entry: the old values, followed by the new value when
the names agree case-insensitively. -/
theorem Fields.get_append_entry (f : Fields) (n : String) (v : Bytes) (nm : String) :
    Fields.get ⟨f.entries ++ [(n, v)]⟩ nm =
      f.get nm ++ (if lowerName n == lowerName nm then [v] else []) := by
  simp only [Fields.get, List.filter_append]
  by_cases h : lowerName n == lowerName nm <;> simp [h]

/-- Every byte produced by the decimal renderer is an ASCII digit. -/
theorem decDigitsAux_digit (fuel : Nat) :
    ∀ n, ∀ b ∈ decDigitsAux fuel n, 48 ≤ b ∧ b ≤ 57 := by
  induction fuel with
  | zero => intro n b hb; simp [decDigitsAux] at hb
  | succ fuel ih =>
    intro n b hb
    simp only [decDigitsAux] at hb
    split at hb
    · simp only [List.mem_singleton] at hb
      omega
    · rcases List.mem_append.mp hb with h | h
      · exact ih _ b h
      · simp only [List.mem_singleton] at h
        have : n % 10 < 10 := Nat.mod_lt _ (by omega)
        omega

/-- The decimal rendering of a number is a valid header value. -/
theorem validFieldValue_decimalDigits (n : Nat) :
    validFieldValue (decimalDigits n) = true := by
  simp only [validFieldValue, List.all_eq_true]
  intro b hb
  have h := decDigitsAux_digit (n + 1) n b hb
  simp only [Bool.and_eq_true, bne_iff_ne, ne_eq]
  omega

/-- UTF-8 encoding of an ASCII character built from its code point. -/
theorem encodeChar_ofNat_ascii : ∀ b, b < 128 → encodeChar (Char.ofNat b) = [b] := by
  decide

/-- The byte string sent for a rendered decimal number is exactly its digit bytes. -/
theorem asBytes_decimalString (n : Nat) : asBytes (decimalString n) = decimalDigits n := by
  have hgen : ∀ l : List Nat, (∀ b ∈ l, b < 128) →
      ((l.map Char.ofNat).map encodeChar).flatten = l := by
    intro l hl
    induction l with
    | nil => rfl
    | cons a t ih =>
      simp only [List.map_cons, List.flatten_cons]
      rw [encodeChar_ofNat_ascii a (hl a (List.mem_cons_self a t)),
        ih fun b hb => hl b (List.mem_cons_of_mem a hb)]
      rfl
  have hd : ∀ b ∈ decimalDigits n, b < 128 := by
    intro b hb
    have := decDigitsAux_digit (n + 1) n b hb
    omega
  simpa [asBytes, decimalString] using hgen (decimalDigits n) hd

/-- Appending a valid header through `with_header` leaves everything but the header
entries unchanged. -/
theorem Request.with_header_ok (r : Request) (name value : String)
    (h1 : validFieldName name = true) (h2 : validFieldValue (asBytes value) = true) :
    r.with_header name value =
      Except.ok { r with headers := ⟨r.headers.entries ++ [(name, asBytes value)]⟩ } := by
  simp [Request.with_header, Fields.append_ok _ _ _ h1 h2]

/-- Write loop: when every write succeeds, all chunks are written. -/
theorem writeChunks_all_ok (okAt : Nat → Bool) (h : ∀ i, okAt i = true) :
    ∀ (l : List Bytes) (i : Nat), writeChunks okAt i l = (l, true) := by
  intro l
  induction l with
  | nil => intro i; rfl
  | cons c rest ih => intro i; simp [writeChunks, h i, ih (i + 1)]

/-- Write loop: the first failing write stops the loop with exactly the earlier chunks
written, each attempted once. -/
theorem writeChunks_fail (okAt : Nat → Bool) :
    ∀ (k : Nat) (l : List Bytes) (i : Nat),
      (∀ j, j < k → okAt (i + j) = true) → okAt (i + k) = false → k < l.length →
      writeChunks okAt i l = (l.take k, false) := by
  intro k
  induction k with
  | zero =>
    intro l i _ hk hlen
    cases l with
    | nil => simp at hlen
    | cons c rest =>
      have h0 : okAt i = false := by simpa using hk
      simp [writeChunks, h0]
  | succ k ih =>
    intro l i h0 hk hlen
    cases l with
    | nil => simp at hlen
    | cons c rest =>
      have hi : okAt i = true := by simpa using h0 0 (by omega)
      have hrec : writeChunks okAt (i + 1) rest = (rest.take k, false) := by
        refine ih rest (i + 1) (fun j hj => ?_) ?_ (by simpa using hlen)
        · have := h0 (j + 1) (by omega)
          have harith : i + 1 + j = i + (j + 1) := by omega
          rw [harith]
          exact this
        · have harith : i + 1 + k = i + (k + 1) := by omega
          rw [harith]
          exact hk
      simp [writeChunks, hi, hrec]

/-- Chunking the empty list gives no chunks, for any fuel. -/
theorem chunksOfFuel_nil (n fuel : Nat) : chunksOfFuel n fuel [] = [] := by
  cases fuel <;> rfl

/-- Concatenating the chunks gives back the original bytes. -/
theorem chunksOfFuel_flatten (n : Nat) (hn : 0 < n) :
    ∀ (fuel : Nat) (l : Bytes), l.length ≤ fuel → (chunksOfFuel n fuel l).flatten = l := by
  intro fuel
  induction fuel with
  | zero =>
    intro l hl
    have : l = [] := List.eq_nil_of_length_eq_zero (by omega)
    subst this
    rfl
  | succ fuel ih =>
    intro l hl
    cases l with
    | nil => rfl
    | cons a t =>
      simp only [chunksOfFuel, List.flatten_cons]
      rw [ih ((a :: t).drop n) (by simp [List.length_drop] at hl ⊢; omega)]
      exact List.take_append_drop n (a :: t)

/-- Concatenating the chunks of `chunksOf` gives back the original bytes. -/
theorem chunksOf_flatten (n : Nat) (hn : 0 < n) (l : Bytes) :
    (chunksOf n l).flatten = l :=
  chunksOfFuel_flatten n hn l.length l (Nat.le_refl _)

/-- Every chunk is nonempty and no longer than the chunk size. -/
theorem chunksOfFuel_sizes (n : Nat) (hn : 0 < n) :
    ∀ (fuel : Nat) (l : Bytes), l.length ≤ fuel →
      ∀ c ∈ chunksOfFuel n fuel l, 0 < c.length ∧ c.length ≤ n := by
  intro fuel
  induction fuel with
  | zero => intro l _ c hc; simp [chunksOfFuel] at hc
  | succ fuel ih =>
    intro l hl c hc
    cases l with
    | nil => simp [chunksOfFuel] at hc
    | cons a t =>
      simp only [chunksOfFuel, List.mem_cons] at hc
      rcases hc with hc | hc
      · subst hc
        simp only [List.length_take, List.length_cons]
        omega
      · exact ih ((a :: t).drop n) (by simp [List.length_drop] at hl ⊢; omega) c hc

/-- Every chunk except the last has exactly the chunk size. -/
theorem chunksOfFuel_dropLast (n : Nat) (hn : 0 < n) :
    ∀ (fuel : Nat) (l : Bytes), l.length ≤ fuel →
      ∀ c ∈ (chunksOfFuel n fuel l).dropLast, c.length = n := by
  intro fuel
  induction fuel with
  | zero => intro l _ c hc; simp [chunksOfFuel] at hc
  | succ fuel ih =>
    intro l hl c hc
    cases l with
    | nil => simp [chunksOfFuel] at hc
    | cons a t =>
      simp only [chunksOfFuel] at hc
      cases hrest : chunksOfFuel n fuel ((a :: t).drop n) with
      | nil => rw [hrest] at hc; simp at hc
      | cons r rs =>
        rw [hrest] at hc
        rw [List.dropLast_cons₂] at hc
        rcases List.mem_cons.mp hc with hc | hc
        · subst hc
          have hdrop : (a :: t).drop n ≠ [] := by
            intro hnil
            rw [hnil, chunksOfFuel_nil] at hrest
            exact List.noConfusion hrest
          have : n < (a :: t).length := by
            by_contra hle
            exact hdrop (List.drop_eq_nil_of_le (by omega))
          simp only [List.length_take, List.length_cons] at this ⊢
          omega
        · rw [← hrest] at hc
          refine ih ((a :: t).drop n) ?_ c hc
          simp only [List.length_drop, List.length_cons] at hl ⊢
          omega

/-- The read loop returns exactly the available chunks, passing the same limit to
every read, including the final failing one. -/
theorem readLoop_eq (limit : Nat) :
    ∀ s, readLoop limit s =
      (availableChunks s, List.replicate ((availableChunks s).length + 1) limit) := by
  intro s
  induction s with
  | nil => rfl
  | cons o rest ih =>
    cases o with
    | none => rfl
    | some c => simp [readLoop, availableChunks, ih, List.replicate_succ]

/-- A stream of only successful reads yields all its chunks. -/
theorem availableChunks_map_some (cs : List Bytes) :
    availableChunks (cs.map some) = cs := by
  induction cs with
  | nil => rfl
  | cons c rest ih => simp [availableChunks, ih]

/-- The record of the exchange phase carries exactly the given components. -/
theorem exchangePhase_record (host : Host) (ex : Nat) (req : OutgoingReq)
    (written : List Bytes) (closed finished : Bool) :
    (exchangePhase host ex req written closed finished).2 =
      ⟨req, written, closed, finished⟩ := by
  unfold exchangePhase
  cases host.exchange ex req <;> rfl

/-- The outgoing request assembled by `execute_request` is always the one built by
`from_url` from the given URL, method and headers. -/
theorem executeRequest_req (host : Host) (ex : Nat) (method : Method)
    (body : Option Bytes) (url : Url) (headers : Fields) :
    (executeRequest host ex method body url headers).2.req = fromUrl url method headers := by
  cases body with
  | none => simp only [executeRequest]; rw [exchangePhase_record]
  | some b =>
    simp only [executeRequest]
    rcases hw : writeChunks (host.writeOk ex) 0 (chunksOf 4096 b) with ⟨written, ok⟩
    cases ok with
    | false => rfl
    | true =>
      by_cases hf : host.finishOk ex = true
      · simp only [hf, if_true]
        rw [exchangePhase_record]
      · simp [hf]

/-- When every write and the finish succeed, `execute_request` records the full chunk
list as written, the stream closed, and the finish called. -/
theorem executeRequest_body_record (host : Host) (ex : Nat) (method : Method)
    (b : Bytes) (url : Url) (headers : Fields)
    (hw : ∀ i, host.writeOk ex i = true) (hf : host.finishOk ex = true) :
    (executeRequest host ex method (some b) url headers).2 =
      ⟨fromUrl url method headers, chunksOf 4096 b, true, true⟩ := by
  simp only [executeRequest]
  rw [writeChunks_all_ok (host.writeOk ex) hw (chunksOf 4096 b) 0]
  simp only [hf, if_true]
  rw [exchangePhase_record]

/-- A failing chunk write traps, with the earlier chunks written exactly once each. -/
theorem executeRequest_write_fail (host : Host) (ex : Nat) (method : Method)
    (b : Bytes) (url : Url) (headers : Fields) (k : Nat)
    (h0 : ∀ j, j < k → host.writeOk ex j = true) (hk : host.writeOk ex k = false)
    (hlen : k < (chunksOf 4096 b).length) :
    executeRequest host ex method (some b) url headers =
      (Outcome.trap, ⟨fromUrl url method headers, (chunksOf 4096 b).take k, false, false⟩) := by
  simp only [executeRequest]
  rw [writeChunks_fail (host.writeOk ex) k (chunksOf 4096 b) 0
    (fun j hj => by simpa using h0 j hj) (by simpa using hk) hlen]

/-- A failing finish traps, after all chunks were written and the stream closed. -/
theorem executeRequest_finish_fail (host : Host) (ex : Nat) (method : Method)
    (b : Bytes) (url : Url) (headers : Fields)
    (hw : ∀ i, host.writeOk ex i = true) (hf : host.finishOk ex = false) :
    executeRequest host ex method (some b) url headers =
      (Outcome.trap, ⟨fromUrl url method headers, chunksOf 4096 b, true, false⟩) := by
  simp only [executeRequest]
  rw [writeChunks_all_ok (host.writeOk ex) hw (chunksOf 4096 b) 0]
  simp [hf]

/-- Behaviour of `send` once the first exchange succeeded: it is entirely determined
by the Location extraction on the first response. -/
theorem send_ok_first (host : Host) (r : Request) (resp : Response)
    (rec1 : ExchangeRecord)
    (h1 : executeRequest host 0 r.method r.body r.url r.headers = (Outcome.ok resp, rec1)) :
    Request.send host r =
      match locationUrl host resp with
      | some loc =>
        ((executeRequest host 1 r.method r.body loc r.headers).1,
         [rec1, (executeRequest host 1 r.method r.body loc r.headers).2])
      | none => (Outcome.ok resp, [rec1]) := by
  unfold Request.send
  rw [h1]

/-- `with_body` always succeeds: the stored body and the appended `Content-Length`
entry, with the other fields untouched. -/
theorem with_body_ok (r : Request) (b : Bytes) :
    r.with_body b = Except.ok
      { method := r.method, url := r.url,
        headers := ⟨r.headers.entries ++ [("Content-Length", decimalDigits b.length)]⟩,
        body := some b } := by
  unfold Request.with_body
  rw [Request.with_header_ok _ _ _ (by decide)
    (by rw [asBytes_decimalString]; exact validFieldValue_decimalDigits b.length)]
  rw [asBytes_decimalString]

/-- C1: once the first exchange has produced a response, `send` branches on the first
(earliest-inserted) `Location` value: if it parses to a URL, `send` performs exactly
one additional exchange against that URL with the original method and header set (the
trace has exactly the two records and the second outgoing request is built by
`from_url` from the Location target, the original method and the original headers);
if `Location` is absent or unparsable, `send` returns the first response unchanged
with a one-exchange trace. -/
theorem C1_redirect_policy (host : Host) (r : Request) (resp : Response)
    (rec1 : ExchangeRecord)
    (h1 : executeRequest host 0 r.method r.body r.url r.headers = (Outcome.ok resp, rec1)) :
    (∀ loc, locationUrl host resp = some loc →
        Request.send host r =
          ((executeRequest host 1 r.method r.body loc r.headers).1,
           [rec1, (executeRequest host 1 r.method r.body loc r.headers).2]) ∧
        (executeRequest host 1 r.method r.body loc r.headers).2.req =
          fromUrl loc r.method r.headers) ∧
    (locationUrl host resp = none → Request.send host r = (Outcome.ok resp, [rec1])) := by
  constructor
  · intro loc hloc
    refine ⟨?_, executeRequest_req host 1 r.method r.body loc r.headers⟩
    rw [send_ok_first host r resp rec1 h1, hloc]
  · intro hloc
    rw [send_ok_first host r resp rec1 h1, hloc]

/-- C1 witness: under `hostRedirect`, the body-less request `reqW` is redirected to
`urlB` in a second exchange reusing the original method and headers. -/
theorem C1_redirect_policy_witness :
    Request.send hostRedirect reqW =
      ((executeRequest hostRedirect 1 reqW.method reqW.body urlB reqW.headers).1,
       [recW1, (executeRequest hostRedirect 1 reqW.method reqW.body urlB reqW.headers).2]) ∧
    (executeRequest hostRedirect 1 reqW.method reqW.body urlB reqW.headers).2.req =
      fromUrl urlB reqW.method reqW.headers :=
  (C1_redirect_policy hostRedirect reqW respLoc recW1 (by decide)).1 urlB (by decide)

/-- C2: `send` never performs more than two exchanges, and when a redirect happens the
outcome of the second exchange is returned as final with no condition on (hence no
inspection of) the second response's own `Location` header. -/
theorem C2_at_most_two_exchanges (host : Host) (r : Request) :
    (Request.send host r).2.length ≤ 2 ∧
    ∀ resp rec1 loc,
      executeRequest host 0 r.method r.body r.url r.headers = (Outcome.ok resp, rec1) →
      locationUrl host resp = some loc →
      (Request.send host r).1 = (executeRequest host 1 r.method r.body loc r.headers).1 := by
  constructor
  · unfold Request.send
    rcases h : executeRequest host 0 r.method r.body r.url r.headers with ⟨o, rec1⟩
    cases o with
    | ok resp => rcases hl : locationUrl host resp with _ | loc <;> simp [hl]
    | err e => simp
    | trap => simp
  · intro resp rec1 loc h1 hloc
    rw [send_ok_first host r resp rec1 h1]
    simp only [hloc]

/-- C2 witness: under `hostRedirect`, `reqW` performs two exchanges and returns the
second exchange's outcome even though the second response carries a Location header. -/
theorem C2_at_most_two_exchanges_witness :
    (Request.send hostRedirect reqW).2.length ≤ 2 ∧
    (Request.send hostRedirect reqW).1 =
      (executeRequest hostRedirect 1 reqW.method reqW.body urlB reqW.headers).1 := by
  have h := C2_at_most_two_exchanges hostRedirect reqW
  exact ⟨h.1, h.2 respLoc recW1 urlB (by decide) (by decide)⟩

/-- C3 counterexample: with a three-byte body, the redirected (second) exchange under
`hostRedirect` writes the body chunks again, so the body bytes ARE re-transmitted on
the second exchange, contrary to the claim. -/
theorem C3_counterexample :
    reqBody.body = some [9, 9, 9] ∧
    ((Request.send hostRedirect reqBody).2.getD 1 recNull).writtenChunks = [[9, 9, 9]] ∧
    ((Request.send hostRedirect reqBody).2.getD 1 recNull).writtenChunks ≠ [] := by
  decide

/-- C3 (amended): when a request with a body is redirected, the second exchange reuses
the original headers verbatim and re-transmits the same body bytes, written again in
4096-byte chunks. -/
theorem C3_amended_body_resent (host : Host) (r : Request) (b : Bytes)
    (resp : Response) (rec1 : ExchangeRecord) (loc : Url)
    (hb : r.body = some b)
    (h1 : executeRequest host 0 r.method r.body r.url r.headers = (Outcome.ok resp, rec1))
    (hloc : locationUrl host resp = some loc)
    (hw : ∀ i, host.writeOk 1 i = true)
    (hf : host.finishOk 1 = true) :
    Request.send host r =
      ((executeRequest host 1 r.method r.body loc r.headers).1,
       [rec1, ⟨fromUrl loc r.method r.headers, chunksOf 4096 b, true, true⟩]) ∧
    (fromUrl loc r.method r.headers).headers = r.headers ∧
    (chunksOf 4096 b).flatten = b := by
  have hrec : (executeRequest host 1 r.method r.body loc r.headers).2 =
      ⟨fromUrl loc r.method r.headers, chunksOf 4096 b, true, true⟩ := by
    rw [hb]
    exact executeRequest_body_record host 1 r.method b loc r.headers hw hf
  refine ⟨?_, rfl, chunksOf_flatten 4096 (by omega) b⟩
  rw [send_ok_first host r resp rec1 h1]
  simp only [hloc]
  rw [hrec]

/-- C3 amended witness: the concrete redirected request re-sends its `[9, 9, 9]` body
with the original headers. -/
theorem C3_amended_body_resent_witness :
    Request.send hostRedirect reqBody =
      ((executeRequest hostRedirect 1 reqBody.method reqBody.body urlB reqBody.headers).1,
       [recB1, ⟨fromUrl urlB reqBody.method reqBody.headers, chunksOf 4096 [9, 9, 9],
         true, true⟩]) ∧
    (fromUrl urlB reqBody.method reqBody.headers).headers = reqBody.headers ∧
    (chunksOf 4096 [9, 9, 9]).flatten = [9, 9, 9] :=
  C3_amended_body_resent hostRedirect reqBody [9, 9, 9] respLoc recB1 urlB rfl
    (by decide) (by decide) (fun _ => rfl) rfl

/-- C4: when the declared `Content-Length` parses to `N` and the stream yields chunks
summing to exactly `N` bytes before closing, `bytes()` returns exactly those bytes, a
buffer of length `N`, for every partition of the bytes into read chunks. -/
theorem C4_bytes_full_body (status : Nat) (headers : Fields) (cs : List Bytes) (N : Nat)
    (hcl : contentLength headers = some N)
    (hlen : (cs.map List.length).sum = N) :
    (Response.bytes ⟨status, headers, cs.map some⟩).length = N ∧
    Response.bytes ⟨status, headers, cs.map some⟩ = cs.flatten := by
  have hb : Response.bytes ⟨status, headers, cs.map some⟩ = cs.flatten := by
    unfold Response.bytes Response.bytesChunks
    rw [readLoop_eq]
    simp [availableChunks_map_some]
  refine ⟨?_, hb⟩
  rw [hb, List.length_flatten, hlen]

/-- C4 witness: `Content-Length: 3` over chunks `[1]` and `[2, 3]`. -/
theorem C4_bytes_full_body_witness :
    (Response.bytes ⟨200, hdrsCL3, [[1], [2, 3]].map some⟩).length = 3 ∧
    Response.bytes ⟨200, hdrsCL3, [[1], [2, 3]].map some⟩ = [[1], [2, 3]].flatten :=
  C4_bytes_full_body 200 hdrsCL3 [[1], [2, 3]] 3 (by decide) (by decide)

/-- C5 counterexample: on `respCL2` (declared length 2), the loop performs a second
successful read whose limit is still 2 even though 2 bytes were already accumulated
(remaining ceiling 0), so the reads are not bounded by the remaining ceiling. -/
theorem C5_counterexample :
    contentLength respCL2.headers = some 2 ∧
    respCL2.readLimits = [2, 2, 2] ∧
    respCL2.bytesChunks = [[1, 1], [7]] ∧
    ¬ boundedByRemaining 2 respCL2.readLimits respCL2.bytesChunks := by
  refine ⟨by decide, by decide, by decide, ?_⟩
  intro hB
  have h := hB 1 (by decide)
  revert h
  decide

/-- C5 (amended): with a parsed `Content-Length` of `N`, every blocking read is bounded
by the same constant limit `N` (the full declared length, never decremented), and the
loop terminates at the first failed/closed read, returning everything read so far
rather than stopping strictly at the declared count. -/
theorem C5_amended_constant_limit (r : Response) (N : Nat)
    (hcl : contentLength r.headers = some N) :
    r.readLimits = List.replicate ((availableChunks r.stream).length + 1) N ∧
    Response.bytes r = (availableChunks r.stream).flatten := by
  have hl : readLimit r.headers = N := by simp [readLimit, hcl]
  unfold Response.readLimits Response.bytes Response.bytesChunks
  rw [hl, readLoop_eq]
  exact ⟨rfl, rfl⟩

/-- C5 amended witness: on `respCL2` the three reads all use limit 2 and the returned
buffer holds all three streamed bytes. -/
theorem C5_amended_constant_limit_witness :
    respCL2.readLimits = List.replicate ((availableChunks respCL2.stream).length + 1) 2 ∧
    Response.bytes respCL2 = (availableChunks respCL2.stream).flatten :=
  C5_amended_constant_limit respCL2 2 (by decide)

/-- C6: `with_body b` always succeeds; the result stores body `b` and appends a
`Content-Length` entry whose value is the decimal rendering of the exact byte length
of `b`, leaving method and URL unchanged. -/
theorem C6_with_body_content_length (r : Request) (b : Bytes) :
    ∃ r2, r.with_body b = Except.ok r2 ∧ r2.body = some b ∧
      r2.headers.get "Content-Length" =
        r.headers.get "Content-Length" ++ [decimalDigits b.length] ∧
      r2.method = r.method ∧ r2.url = r.url := by
  refine ⟨_, with_body_ok r b, rfl, ?_, rfl, rfl⟩
  rw [Fields.get_append_entry r.headers "Content-Length" (decimalDigits b.length)
    "Content-Length"]
  simp

/-- C6 witness: a two-byte body on `reqW` yields `Content-Length: 2`. -/
theorem C6_with_body_content_length_witness :
    ∃ r2, reqW.with_body [7, 8] = Except.ok r2 ∧ r2.body = some [7, 8] ∧
      r2.headers.get "Content-Length" =
        reqW.headers.get "Content-Length" ++ [decimalDigits 2] ∧
      r2.method = reqW.method ∧ r2.url = reqW.url :=
  C6_with_body_content_length reqW [7, 8]

/-- C7: the plugin-boundary conversion maps an `Http` error losslessly back to its
transport error code, and maps each of the two other kinds to the generic
`InternalError` code carrying that error's rendered message as context. -/
theorem C7_error_mapper :
    (∀ code, ErrorCode.fromError (Error.Http code) = code) ∧
    (∀ m, ErrorCode.fromError (Error.SerdeJson m) =
        ErrorCode.InternalError (some (Error.render (Error.SerdeJson m)))) ∧
    (∀ he, ErrorCode.fromError (Error.Header he) =
        ErrorCode.InternalError (some (Error.render (Error.Header he)))) :=
  ⟨fun _ => rfl, fun _ => rfl, fun _ => rfl⟩

/-- C7 witness: the three kinds at concrete values. -/
theorem C7_error_mapper_witness :
    ErrorCode.fromError (Error.Http ErrorCode.DnsTimeout) = ErrorCode.DnsTimeout ∧
    ErrorCode.fromError (Error.SerdeJson "boom") =
      ErrorCode.InternalError (some (Error.render (Error.SerdeJson "boom"))) ∧
    ErrorCode.fromError (Error.Header HeaderError.invalid) =
      ErrorCode.InternalError (some (Error.render (Error.Header HeaderError.invalid))) := by
  obtain ⟨h1, h2, h3⟩ := C7_error_mapper
  exact ⟨h1 ErrorCode.DnsTimeout, h2 "boom", h3 HeaderError.invalid⟩

/-- C8 (amended): the Transmitter writes a present body as the `chunks(4096)`
partition — every chunk nonempty and at most 4096 bytes, every chunk but the last
exactly 4096 bytes, concatenating back to the body — one write-and-flush per chunk,
then closes the stream and calls finish with no trailers; a chunk-write failure traps
after writing exactly the earlier chunks once each (never retried, never returned as
a typed error), and a finish failure likewise traps. -/
theorem C8_amended_chunked_write (host : Host) (ex : Nat) (method : Method) (b : Bytes)
    (url : Url) (headers : Fields) :
    ((∀ i, host.writeOk ex i = true) → host.finishOk ex = true →
      (executeRequest host ex method (some b) url headers).2.writtenChunks =
        chunksOf 4096 b ∧
      (chunksOf 4096 b).flatten = b ∧
      (∀ c ∈ chunksOf 4096 b, 0 < c.length ∧ c.length ≤ 4096) ∧
      (∀ c ∈ (chunksOf 4096 b).dropLast, c.length = 4096) ∧
      (executeRequest host ex method (some b) url headers).2.streamClosed = true ∧
      (executeRequest host ex method (some b) url headers).2.finishCalled = true) ∧
    (∀ k, (∀ j, j < k → host.writeOk ex j = true) → host.writeOk ex k = false →
      k < (chunksOf 4096 b).length →
      executeRequest host ex method (some b) url headers =
        (Outcome.trap,
         ⟨fromUrl url method headers, (chunksOf 4096 b).take k, false, false⟩)) ∧
    ((∀ i, host.writeOk ex i = true) → host.finishOk ex = false →
      executeRequest host ex method (some b) url headers =
        (Outcome.trap, ⟨fromUrl url method headers, chunksOf 4096 b, true, false⟩)) := by
  refine ⟨fun hw hf => ?_,
    fun k h0 hk hlen => executeRequest_write_fail host ex method b url headers k h0 hk hlen,
    fun hw hf => executeRequest_finish_fail host ex method b url headers hw hf⟩
  have hrec := executeRequest_body_record host ex method b url headers hw hf
  rw [hrec]
  exact ⟨rfl, chunksOf_flatten 4096 (by omega) b,
    fun c hc => chunksOfFuel_sizes 4096 (by omega) b.length b (Nat.le_refl _) c hc,
    fun c hc => chunksOfFuel_dropLast 4096 (by omega) b.length b (Nat.le_refl _) c hc,
    rfl, rfl⟩

/-- C8 counterexample: when the first chunk write fails, `send` traps (the `unwrap`
panic aborts the component); the failure is NOT surfaced to the caller as a typed
error of the exchange, contrary to the claim. -/
theorem C8_counterexample :
    (Request.send hostWriteFail reqBodySmall).1 = Outcome.trap ∧
    ∀ e, (Request.send hostWriteFail reqBodySmall).1 ≠ Outcome.err e := by
  have h : (Request.send hostWriteFail reqBodySmall).1 = Outcome.trap := by decide
  refine ⟨h, fun e hc => ?_⟩
  rw [h] at hc
  exact Outcome.noConfusion hc

/-- C8 amended witness: a failing first write traps with nothing written; a succeeding
transfer writes exactly the `chunks(4096)` partition. -/
theorem C8_amended_chunked_write_witness :
    executeRequest hostWriteFail 0 reqBodySmall.method (some [7]) reqBodySmall.url
        reqBodySmall.headers =
      (Outcome.trap, ⟨fromUrl reqBodySmall.url reqBodySmall.method reqBodySmall.headers,
        (chunksOf 4096 [7]).take 0, false, false⟩) ∧
    (executeRequest hostRedirect 0 Method.Post (some [9, 9, 9]) urlA hdrsW).2.writtenChunks =
      chunksOf 4096 [9, 9, 9] := by
  constructor
  · exact (C8_amended_chunked_write hostWriteFail 0 reqBodySmall.method [7]
      reqBodySmall.url reqBodySmall.headers).2.1 0
      (fun j hj => absurd hj (Nat.not_lt_zero j)) rfl (by decide)
  · exact ((C8_amended_chunked_write hostRedirect 0 Method.Post [9, 9, 9] urlA
      hdrsW).1 (fun _ => rfl) rfl).1

/-- Rejected header names or values make `with_header` fail with a header error,
independently of the receiving request. -/
theorem Request.with_header_err (r : Request) (name value : String)
    (hv : (validFieldName name && validFieldValue (asBytes value)) = false) :
    r.with_header name value = Except.error (Error.Header HeaderError.invalid) := by
  unfold Request.with_header Fields.append
  rw [if_neg (by simp [hv])]

/-- C9: the builder steps are pure value-to-value functions: `with_headers` only
replaces the header set; a successful `with_header` only appends the one entry; a
failed `with_header` yields a `Header` error and the failure is a function of the
name/value alone (every request value fails identically, so no request state is
modified); `with_body` and `with_json` preserve method and URL. -/
theorem C9_builder_value_semantics :
    (∀ (r : Request) (f : Fields),
        (r.with_headers f).method = r.method ∧ (r.with_headers f).url = r.url ∧
        (r.with_headers f).body = r.body ∧ (r.with_headers f).headers = f) ∧
    (∀ (r : Request) (name value : String) (r2 : Request),
        r.with_header name value = Except.ok r2 →
        r2.method = r.method ∧ r2.url = r.url ∧ r2.body = r.body ∧
        r2.headers.entries = r.headers.entries ++ [(name, asBytes value)]) ∧
    (∀ (r : Request) (name value : String) (e : Error),
        r.with_header name value = Except.error e →
        (∃ he, e = Error.Header he) ∧
        ∀ r3 : Request, r3.with_header name value = Except.error e) ∧
    (∀ (r : Request) (b : Bytes) (r2 : Request),
        r.with_body b = Except.ok r2 → r2.method = r.method ∧ r2.url = r.url) ∧
    (∀ (r : Request) (ser : Except String String) (r2 : Request),
        r.with_json ser = Except.ok r2 → r2.method = r.method ∧ r2.url = r.url) := by
  refine ⟨fun r f => ⟨rfl, rfl, rfl, rfl⟩, ?_, ?_, ?_, ?_⟩
  · intro r name value r2 h
    cases hv : validFieldName name && validFieldValue (asBytes value) with
    | false =>
      rw [Request.with_header_err r name value hv] at h
      exact Except.noConfusion h
    | true =>
      rw [Bool.and_eq_true] at hv
      obtain ⟨h1, h2⟩ := hv
      rw [Request.with_header_ok r name value h1 h2] at h
      injection h with h
      subst h
      exact ⟨rfl, rfl, rfl, rfl⟩
  · intro r name value e h
    cases hv : validFieldName name && validFieldValue (asBytes value) with
    | false =>
      rw [Request.with_header_err r name value hv] at h
      injection h with h
      subst h
      exact ⟨⟨HeaderError.invalid, rfl⟩, fun r3 => Request.with_header_err r3 name value hv⟩
    | true =>
      rw [Bool.and_eq_true] at hv
      obtain ⟨h1, h2⟩ := hv
      rw [Request.with_header_ok r name value h1 h2] at h
      exact Except.noConfusion h
  · intro r b r2 h
    rw [with_body_ok] at h
    injection h with h
    subst h
    exact ⟨rfl, rfl⟩
  · intro r ser r2 h
    cases ser with
    | ok json =>
      simp only [Request.with_json,
        Fields.append_ok r.headers "Content-Type"
          (asBytes "application/json; charset=UTF-8") (by decide) (by decide),
        with_body_ok] at h
      injection h with h
      subst h
      exact ⟨rfl, rfl⟩
    | error msg =>
      simp only [Request.with_json,
        Fields.append_ok r.headers "Content-Type"
          (asBytes "application/json; charset=UTF-8") (by decide) (by decide)] at h
      exact Except.noConfusion h

/-- C9 witness: replacing headers keeps the rest; an invalid header name fails with
the same `Header` error on a different request value. -/
theorem C9_builder_value_semantics_witness :
    ((Request.new Method.Get urlA).with_headers hdrsW).headers = hdrsW ∧
    reqW.with_header "bad name" "v" = Except.error (Error.Header HeaderError.invalid) := by
  have h := C9_builder_value_semantics
  refine ⟨(h.1 (Request.new Method.Get urlA) hdrsW).2.2.2, ?_⟩
  exact (h.2.2.1 (Request.new Method.Get urlA) "bad name" "v"
    (Error.Header HeaderError.invalid) (by rfl)).2 reqW

/-- C10: `get_series_episodes` targets the episodes endpoint with `page[limit]=10` and
`page[offset]=(max(p,1)-1)*10`; an omitted page and page 0 behave exactly as page 1,
and for every u16 page value the offset arithmetic stays below 2^32 (the saturating
subtraction and the u32 multiply never wrap). -/
theorem C10_get_series_episodes_paging (seriesId : String) (page : Option Nat)
    (hpage : ∀ p ∈ page, p < 65536) :
    getSeriesEpisodesUrl seriesId page =
      KITSU_URL ++ "/episodes?filter[mediaId]=" ++ seriesId ++ "&page[limit]=" ++ "10" ++
        "&page[offset]=" ++ decimalString ((max (page.getD 1) 1 - 1) * PAGE_LIMIT) ∧
    (page.getD 1 - 1) * PAGE_LIMIT < 4294967296 ∧
    getSeriesEpisodesUrl seriesId none = getSeriesEpisodesUrl seriesId (some 0) ∧
    getSeriesEpisodesUrl seriesId (some 0) = getSeriesEpisodesUrl seriesId (some 1) := by
  have hp : page.getD 1 < 65536 := by
    cases page with
    | none => decide
    | some p => simpa using hpage p rfl
  have h10 : PAGE_LIMIT = 10 := rfl
  have hlt : (page.getD 1 - 1) * PAGE_LIMIT < 4294967296 := by rw [h10]; omega
  have hmax : max (page.getD 1) 1 - 1 = page.getD 1 - 1 := by omega
  refine ⟨?_, hlt, rfl, rfl⟩
  simp only [getSeriesEpisodesUrl]
  rw [Nat.mod_eq_of_lt hlt, hmax, (by decide : decimalString PAGE_LIMIT = "10")]

/-- C10 witness: page 3 yields offset 20; omitted page and page 0 equal page 1. -/
theorem C10_get_series_episodes_paging_witness :
    getSeriesEpisodesUrl "42" (some 3) =
      KITSU_URL ++ "/episodes?filter[mediaId]=" ++ "42" ++ "&page[limit]=" ++ "10" ++
        "&page[offset]=" ++ decimalString ((max ((some 3 : Option Nat).getD 1) 1 - 1) *
          PAGE_LIMIT) ∧
    (((some 3 : Option Nat).getD 1) - 1) * PAGE_LIMIT < 4294967296 ∧
    getSeriesEpisodesUrl "42" none = getSeriesEpisodesUrl "42" (some 0) ∧
    getSeriesEpisodesUrl "42" (some 0) = getSeriesEpisodesUrl "42" (some 1) :=
  C10_get_series_episodes_paging "42" (some 3)
    (by intro p hp; simp only [Option.mem_def, Option.some.injEq] at hp; omega)

end Client
